import Mathlib

/-!
Verification development for the walk-generation module of the
`multigraffity` repository (`src/walkers.py`).

Shallow embedding choices:

* Nodes are natural numbers (the repository's examples use integer node
  labels); a walk is produced as a list of nodes and converted to the list
  of their string forms at the end, mirroring `walk = [str(w) for w in walk]`.
* A networkx simple graph is modelled by its node list (in native iteration
  order) and its neighbor-list function; a multigraph additionally carries,
  for each ordered pair `(u, v)`, the list of parallel edges
  `graph[u][v].items()` as `(key, weight)` pairs, in dict iteration order.
* Edge weights and the parameters `p`, `q`, `hop_rate` are rationals
  (Python floats carry exact decimal literals in all scenarios of interest;
  `1/p` raises `ZeroDivisionError` exactly when `p == 0`).
* Randomness: each call of `random.sample`, `random.choices` or
  `np.random.choice` draws one element of a nonempty candidate list; we
  abstract the random stream as an index oracle `fs : Nat → Nat`, the draw
  at a step picking index `fs 0 % candidates.length`, the rest of the
  stream being `shift fs`.  The probability distribution realised by a
  single weighted draw is modelled separately by `probOf`.
* `np.random.choice` on an empty candidate array raises (`ValueError`), as
  does the preceding normalisation-by-zero of an empty weight vector in
  spirit; `BiasedRandomWalker.ext` therefore returns `Option`, `none`
  standing for that raised error.  The other three walkers guard with
  `if len(...) > 0` and never fail.
-/

/-- Node identifiers, as in the repository's integer-labelled graphs. -/
abbrev Node := Nat

/-- A networkx simple graph as the walkers see it: node iteration order and
neighbor lists (`graph.nodes()` and `graph.neighbors(u)`). -/
structure SGraph where
  nodes : List Node
  neighbors : Node → List Node

/-- A networkx multigraph as the walkers see it: node iteration order, the
unique-neighbor lists (`graph.neighbors(u)`), and for each ordered pair the
parallel edges `graph[u][v].items()` as `(key, weight)` pairs.  networkx
guarantees that `v ∈ nebs u` holds exactly when `edges u v` is nonempty;
theorems that need this state it as a hypothesis. -/
structure MGraph where
  nodes : List Node
  nebs : Node → List Node
  edges : Node → Node → List (Nat × ℚ)

/-- Drop the first entry of an index oracle: the stream left after one draw. -/
def shift (fs : Nat → Nat) : Nat → Nat := fun n => fs (n + 1)

/-- Semantics of one weighted random draw (`random.choices(xs, weights)` /
`np.random.choice(xs, p=w/sum w)`): the probability that the drawn entry
satisfies `pick` is the weight of the satisfying entries over the total
weight. -/
def probOf {α : Type} (cands : List (α × ℚ)) (pick : α → Bool) : ℚ :=
  ((cands.filter (fun c => pick c.1)).map (fun c => c.2)).sum /
    ((cands.map (fun c => c.2)).sum)

/-- Steps appended after the seed by `RandomWalker.do_walk`'s loop
(`src/walkers.py` lines 50-54): at each of the remaining iterations, list the
neighbors of the last node; if nonempty, draw one uniformly
(`random.sample(nebs, 1)`, here the oracle index) and append it, else the
iteration is a no-op. -/
def RandomWalker.ext (g : SGraph) (fs : Nat → Nat) : Nat → Node → List Node
  | 0, _ => []
  | fuel + 1, cur =>
    let nebs := g.neighbors cur
    if nebs.length > 0 then
      let next := nebs.getD (fs 0 % nebs.length) 0
      next :: RandomWalker.ext g (shift fs) fuel next
    else
      RandomWalker.ext g fs fuel cur

/-- Embedding of `RandomWalker.do_walk` (`src/walkers.py` lines 42-56): start at `node`,
run `walk_length - 1` extension iterations, and return the string forms. -/
def RandomWalker.do_walk (g : SGraph) (fs : Nat → Nat) (walk_length : Nat)
    (node : Node) : List String :=
  (node :: RandomWalker.ext g fs (walk_length - 1) node).map toString

/-- The driver loop shared by every walker's `do_walks` (`src/walkers.py`
lines 58-69 and the three identical copies): `self.walks = []`, then for each
node of the graph append `walk_number` results of `do_walk(node)` in call
order.  `f c n` is the walk returned by the `c`-th call of `do_walk` overall
(each call consumes fresh randomness), with argument `n`. -/
def doWalksLoop (f : Nat → Node → List String) (walk_number : Nat) :
    List Node → Nat → List (List String) → List (List String)
  | [], _, walks => walks
  | node :: rest, c, walks =>
    doWalksLoop f walk_number rest (c + walk_number)
      (walks ++ (List.range walk_number).map (fun i => f (c + i) node))

/-- The `do_walks` method: the previous contents of `self.walks` are
discarded (`self.walks = []`) before the driver loop runs over
`graph.nodes()`. -/
def do_walks (oldWalks : List (List String)) (nodes : List Node)
    (walk_number : Nat) (f : Nat → Node → List String) : List (List String) :=
  let _ := oldWalks
  doWalksLoop f walk_number nodes 0 []

/-- Numpy boolean-mask assignment `probability[mask(C)] = v` on a weight
vector `prob` aligned with the neighbor array `C`
(`src/walkers.py` lines 108-109). -/
def maskAssign (C : List Node) (mask : Node → Bool) (v : ℚ) (prob : List ℚ) :
    List ℚ :=
  (C.zip prob).map (fun xw => if mask xw.1 then v else xw.2)

/-- The unnormalised weight vector of one `BiasedRandomWalker.do_walk` step
(`src/walkers.py` lines 107-109), built exactly as the source does:
`[1/q] * len(C)`, then `probability[C == previous_node] = 1/p`, then
`probability[np.isin(C, previous_node_neighbors)] = 1`. -/
def BiasedRandomWalker.stepWeights (p q : ℚ) (C : List Node)
    (previous_node : Option Node) (previous_node_neighbors : List Node) :
    List ℚ :=
  let probability := List.replicate C.length (1 / q)
  let probability := maskAssign C (fun x => previous_node == some x) (1 / p)
    probability
  let probability := maskAssign C (fun x => previous_node_neighbors.contains x)
    1 probability
  probability

/-- Normalisation `probability / sum(probability)` of a step's weight vector
(`src/walkers.py` line 110). -/
def normProbability (ws : List ℚ) : List ℚ := ws.map (fun w => w / ws.sum)

/-- Steps appended after the seed by `BiasedRandomWalker.do_walk`'s loop
(`src/walkers.py` lines 103-115).  The walk state `(previous_node,
previous_node_neighbors)` is threaded exactly as in the source; the drawn
index abstracts `np.random.choice` (whose distribution over the current
neighbors is `normProbability (stepWeights ...)`).  When the current node
has no neighbors the weight vector is empty, `probability/sum(probability)`
is a division by zero and `np.random.choice` raises: modelled by `none`. -/
def BiasedRandomWalker.ext (g : SGraph) (p q : ℚ) (fs : Nat → Nat) :
    Nat → Node → Option Node → List Node → Option (List Node)
  | 0, _, _, _ => some []
  | fuel + 1, cur, previous_node, previous_node_neighbors =>
    let _ := (previous_node, previous_node_neighbors)
    let C := g.neighbors cur
    if C.length > 0 then
      let next := C.getD (fs 0 % C.length) 0
      match BiasedRandomWalker.ext g p q (shift fs) fuel next (some cur) C with
      | some rest => some (next :: rest)
      | none => none
    else
      none

/-- Embedding of `BiasedRandomWalker.do_walk` (`src/walkers.py` lines 95-118): the state
starts with `previous_node = None`, `previous_node_neighbors = []`; `none`
models the error raised when a step finds no neighbors. -/
def BiasedRandomWalker.do_walk (g : SGraph) (p q : ℚ) (fs : Nat → Nat)
    (walk_length : Nat) (node : Node) : Option (List String) :=
  (BiasedRandomWalker.ext g p q fs (walk_length - 1) node none []).map
    (fun ext => (node :: ext).map toString)

/-- The record stored by `BiasedRandomWalker.__init__` on success. -/
structure BiasedRandomWalkerState where
  walk_length : Nat
  walk_number : Nat
  p : ℚ
  q : ℚ
  deriving DecidableEq

/-- Embedding of `BiasedRandomWalker.__init__` (`src/walkers.py` lines 81-93): computing
`1/p` raises `ZeroDivisionError` exactly when `p = 0` (likewise `q`), turned
into a `ValueError`; otherwise all four parameters are stored.  No graph is
touched: failure happens before any walk is attempted. -/
def BiasedRandomWalker.init (walk_length walk_number : Nat) (p q : ℚ) :
    Except String BiasedRandomWalkerState :=
  if p = 0 then
    Except.error "The value of p is too small or zero to be used in 1/p."
  else if q = 0 then
    Except.error "The value of q is too small or zero to be used in 1/q."
  else
    Except.ok ⟨walk_length, walk_number, p, q⟩

/-- One step's candidate list of `MultiRandomWalker.do_walk`
(`src/walkers.py` lines 156-161): one `(neighbor, weight)` entry per
parallel edge of the current node, built by iterating the unique neighbors
and, inside, `graph[u][neigh].values()`. -/
def MultiRandomWalker.candidates (g : MGraph) (u : Node) : List (Node × ℚ) :=
  (g.nebs u).flatMap (fun neigh =>
    (g.edges u neigh).map (fun kd => (neigh, kd.2)))

/-- Steps appended after the seed by `MultiRandomWalker.do_walk`'s loop
(`src/walkers.py` lines 153-162): if the unique-neighbor list is nonempty,
draw one candidate entry weighted by `random.choices` (oracle index) and
append its neighbor; else no-op. -/
def MultiRandomWalker.ext (g : MGraph) (fs : Nat → Nat) : Nat → Node → List Node
  | 0, _ => []
  | fuel + 1, cur =>
    if (g.nebs cur).length > 0 then
      let cands := MultiRandomWalker.candidates g cur
      let next := (cands.getD (fs 0 % cands.length) (0, 0)).1
      next :: MultiRandomWalker.ext g (shift fs) fuel next
    else
      MultiRandomWalker.ext g fs fuel cur

/-- Embedding of `MultiRandomWalker.do_walk` (`src/walkers.py` lines 145-164). -/
def MultiRandomWalker.do_walk (g : MGraph) (fs : Nat → Nat) (walk_length : Nat)
    (node : Node) : List String :=
  (node :: MultiRandomWalker.ext g fs (walk_length - 1) node).map toString

/-- The keyed candidate enumeration both multigraph walkers share: for each
unique neighbor and each parallel edge `(key, data)` to it, one entry
`((neighbor, key), weight)`, before any hop factor. -/
def keyedCandidates (g : MGraph) (u : Node) : List ((Node × Nat) × ℚ) :=
  (g.nebs u).flatMap (fun neigh =>
    (g.edges u neigh).map (fun kd => ((neigh, kd.1), kd.2)))

/-- One step's candidate list of `MultiRandomWalkerWithHops.do_walk`
(`src/walkers.py` lines 207-212): `factor = hop_rate if (prev_key is not
None and prev_key != key) else 1.`, and each parallel edge contributes the
entry `((neigh, key), weight * factor)`. -/
def MultiRandomWalkerWithHops.candidates (g : MGraph) (hop_rate : ℚ)
    (u : Node) (prev_key : Option Nat) : List ((Node × Nat) × ℚ) :=
  (g.nebs u).flatMap (fun neigh =>
    (g.edges u neigh).map (fun kd =>
      let factor : ℚ :=
        if prev_key ≠ none ∧ prev_key ≠ some kd.1 then hop_rate else 1
      ((neigh, kd.1), kd.2 * factor)))

/-- Steps appended after the seed by `MultiRandomWalkerWithHops.do_walk`'s
loop (`src/walkers.py` lines 205-216): if the unique-neighbor list is
nonempty, draw one `(neighbor, key)` candidate weighted by `random.choices`
(oracle index), append the neighbor and record the key as the new
`prev_key`; else no-op. -/
def MultiRandomWalkerWithHops.ext (g : MGraph) (hop_rate : ℚ)
    (fs : Nat → Nat) : Nat → Node → Option Nat → List Node
  | 0, _, _ => []
  | fuel + 1, cur, prev_key =>
    if (g.nebs cur).length > 0 then
      let cands := MultiRandomWalkerWithHops.candidates g hop_rate cur prev_key
      let chosen := cands.getD (fs 0 % cands.length) ((0, 0), 0)
      chosen.1.1 ::
        MultiRandomWalkerWithHops.ext g hop_rate (shift fs) fuel chosen.1.1
          (some chosen.1.2)
    else
      MultiRandomWalkerWithHops.ext g hop_rate fs fuel cur prev_key

/-- Embedding of `MultiRandomWalkerWithHops.do_walk` (`src/walkers.py` lines 195-218):
`prev_key` starts as `None`. -/
def MultiRandomWalkerWithHops.do_walk (g : MGraph) (hop_rate : ℚ)
    (fs : Nat → Nat) (walk_length : Nat) (node : Node) : List String :=
  (node :: MultiRandomWalkerWithHops.ext g hop_rate fs (walk_length - 1)
    node none).map toString

/-- The record stored by `MultiRandomWalkerWithHops.__init__` on success. -/
structure MultiRandomWalkerWithHopsState where
  walk_length : Nat
  walk_number : Nat
  hop_rate : ℚ
  deriving DecidableEq

/-- Embedding of `MultiRandomWalkerWithHops.__init__` (`src/walkers.py` lines 188-193):
rejects `hop_rate <= 0` with a `ValueError`, otherwise stores the
parameters.  No graph is touched: failure happens before any walk is
attempted. -/
def MultiRandomWalkerWithHops.init (walk_length walk_number : Nat)
    (hop_rate : ℚ) : Except String MultiRandomWalkerWithHopsState :=
  if hop_rate ≤ 0 then
    Except.error "Hop rate must be a float number greater than zero."
  else
    Except.ok ⟨walk_length, walk_number, hop_rate⟩

/-- Triangle graph on nodes 0, 1, 2, fully connected (the spec's §8 concrete
scenario). -/
def triangle : SGraph :=
  ⟨[0, 1, 2], fun n =>
    if n = 0 then [1, 2]
    else if n = 1 then [0, 2]
    else if n = 2 then [0, 1]
    else []⟩

/-- Two-node graph whose node 5 is isolated and which has no edges at all
(the spec's §8 concrete scenario). -/
def isoGraph : SGraph := ⟨[1, 5], fun _ => []⟩

/-- Example multigraph: node 0 joined to node 1 by two parallel edges
(keys 0 and 1, weights 9 and 2) and to node 2 by one edge of weight 1. -/
def mgEx : MGraph :=
  ⟨[0, 1, 2],
   fun n =>
     if n = 0 then [1, 2]
     else if n = 1 then [0]
     else if n = 2 then [0]
     else [],
   fun u v =>
     if u = 0 ∧ v = 1 then [(0, 9), (1, 2)]
     else if u = 0 ∧ v = 2 then [(0, 1)]
     else if u = 1 ∧ v = 0 then [(0, 9), (1, 2)]
     else if u = 2 ∧ v = 0 then [(0, 1)]
     else []⟩

lemma randomWalker_ext_length_le (g : SGraph) (fuel : Nat) :
    ∀ (fs : Nat → Nat) (cur : Node),
      (RandomWalker.ext g fs fuel cur).length ≤ fuel := by
  induction fuel with
  | zero => intro fs cur; simp [RandomWalker.ext]
  | succ n ih =>
    intro fs cur
    rw [RandomWalker.ext]
    dsimp only
    split
    · simpa using Nat.succ_le_succ (ih _ _)
    · exact Nat.le_succ_of_le (ih _ _)

lemma multiRandomWalker_ext_length_le (g : MGraph) (fuel : Nat) :
    ∀ (fs : Nat → Nat) (cur : Node),
      (MultiRandomWalker.ext g fs fuel cur).length ≤ fuel := by
  induction fuel with
  | zero => intro fs cur; simp [MultiRandomWalker.ext]
  | succ n ih =>
    intro fs cur
    rw [MultiRandomWalker.ext]
    dsimp only
    split
    · simpa using Nat.succ_le_succ (ih _ _)
    · exact Nat.le_succ_of_le (ih _ _)

lemma hops_ext_length_le (g : MGraph) (hop_rate : ℚ) (fuel : Nat) :
    ∀ (fs : Nat → Nat) (cur : Node) (prev_key : Option Nat),
      (MultiRandomWalkerWithHops.ext g hop_rate fs fuel cur prev_key).length
        ≤ fuel := by
  induction fuel with
  | zero => intro fs cur pk; simp [MultiRandomWalkerWithHops.ext]
  | succ n ih =>
    intro fs cur pk
    rw [MultiRandomWalkerWithHops.ext]
    dsimp only
    split
    · simpa using Nat.succ_le_succ (ih _ _ _)
    · exact Nat.le_succ_of_le (ih _ _ _)

lemma biased_ext_length_le (g : SGraph) (p q : ℚ) (fuel : Nat) :
    ∀ (fs : Nat → Nat) (cur : Node) (prev : Option Node) (pn : List Node)
      (res : List Node),
      BiasedRandomWalker.ext g p q fs fuel cur prev pn = some res →
      res.length ≤ fuel := by
  induction fuel with
  | zero =>
    intro fs cur prev pn res h
    simp only [BiasedRandomWalker.ext, Option.some.injEq] at h
    simp [← h]
  | succ n ih =>
    intro fs cur prev pn res h
    rw [BiasedRandomWalker.ext] at h
    dsimp only at h
    split at h
    · split at h
      case _ rest hrest =>
        simp only [Option.some.injEq] at h
        subst h
        simpa using Nat.succ_le_succ (ih _ _ _ _ _ hrest)
      case _ => exact absurd h (by simp)
    · exact absurd h (by simp)

lemma randomWalker_ext_empty (g : SGraph) (fuel : Nat) :
    ∀ (fs : Nat → Nat) (cur : Node), g.neighbors cur = [] →
      RandomWalker.ext g fs fuel cur = [] := by
  induction fuel with
  | zero => intro fs cur _; simp [RandomWalker.ext]
  | succ n ih =>
    intro fs cur h
    rw [RandomWalker.ext]
    dsimp only
    rw [if_neg (by simp [h])]
    exact ih _ _ h

lemma multiRandomWalker_ext_empty (g : MGraph) (fuel : Nat) :
    ∀ (fs : Nat → Nat) (cur : Node), g.nebs cur = [] →
      MultiRandomWalker.ext g fs fuel cur = [] := by
  induction fuel with
  | zero => intro fs cur _; simp [MultiRandomWalker.ext]
  | succ n ih =>
    intro fs cur h
    rw [MultiRandomWalker.ext]
    dsimp only
    rw [if_neg (by simp [h])]
    exact ih _ _ h

lemma hops_ext_empty (g : MGraph) (hop_rate : ℚ) (fuel : Nat) :
    ∀ (fs : Nat → Nat) (cur : Node) (prev_key : Option Nat),
      g.nebs cur = [] →
      MultiRandomWalkerWithHops.ext g hop_rate fs fuel cur prev_key = [] := by
  induction fuel with
  | zero => intro fs cur pk _; simp [MultiRandomWalkerWithHops.ext]
  | succ n ih =>
    intro fs cur pk h
    rw [MultiRandomWalkerWithHops.ext]
    dsimp only
    rw [if_neg (by simp [h])]
    exact ih _ _ _ h

lemma biased_ext_empty (g : SGraph) (p q : ℚ) (fs : Nat → Nat) (fuel : Nat)
    (cur : Node) (prev : Option Node) (pn : List Node)
    (h : g.neighbors cur = []) :
    BiasedRandomWalker.ext g p q fs (fuel + 1) cur prev pn = none := by
  rw [BiasedRandomWalker.ext]
  dsimp only
  rw [if_neg (by simp [h])]

/-- C1: for every walker strategy and every seed node, with configured
walk_length L ≥ 1, the walk returned by `do_walk` has length between 1 and L
inclusive and its first element equals the string form of the seed node (for
`BiasedRandomWalker`, whenever a walk is returned at all). -/
theorem C1_walk_length_and_head (L : Nat) (hL : 1 ≤ L) :
    (∀ (g : SGraph) (fs : Nat → Nat) (node : Node),
      1 ≤ (RandomWalker.do_walk g fs L node).length ∧
      (RandomWalker.do_walk g fs L node).length ≤ L ∧
      (RandomWalker.do_walk g fs L node).head? = some (toString node)) ∧
    (∀ (g : MGraph) (fs : Nat → Nat) (node : Node),
      1 ≤ (MultiRandomWalker.do_walk g fs L node).length ∧
      (MultiRandomWalker.do_walk g fs L node).length ≤ L ∧
      (MultiRandomWalker.do_walk g fs L node).head? = some (toString node)) ∧
    (∀ (g : MGraph) (hop_rate : ℚ) (fs : Nat → Nat) (node : Node),
      1 ≤ (MultiRandomWalkerWithHops.do_walk g hop_rate fs L node).length ∧
      (MultiRandomWalkerWithHops.do_walk g hop_rate fs L node).length ≤ L ∧
      (MultiRandomWalkerWithHops.do_walk g hop_rate fs L node).head? =
        some (toString node)) ∧
    (∀ (g : SGraph) (p q : ℚ) (fs : Nat → Nat) (node : Node) (w : List String),
      BiasedRandomWalker.do_walk g p q fs L node = some w →
      1 ≤ w.length ∧ w.length ≤ L ∧ w.head? = some (toString node)) := by
  refine ⟨?_, ?_, ?_, ?_⟩
  · intro g fs node
    have h := randomWalker_ext_length_le g (L - 1) fs node
    refine ⟨by simp [RandomWalker.do_walk], ?_, by simp [RandomWalker.do_walk]⟩
    simp only [RandomWalker.do_walk, List.length_map, List.length_cons]
    omega
  · intro g fs node
    have h := multiRandomWalker_ext_length_le g (L - 1) fs node
    refine ⟨by simp [MultiRandomWalker.do_walk], ?_,
      by simp [MultiRandomWalker.do_walk]⟩
    simp only [MultiRandomWalker.do_walk, List.length_map, List.length_cons]
    omega
  · intro g hop_rate fs node
    have h := hops_ext_length_le g hop_rate (L - 1) fs node none
    refine ⟨by simp [MultiRandomWalkerWithHops.do_walk], ?_,
      by simp [MultiRandomWalkerWithHops.do_walk]⟩
    simp only [MultiRandomWalkerWithHops.do_walk, List.length_map,
      List.length_cons]
    omega
  · intro g p q fs node w hw
    simp only [BiasedRandomWalker.do_walk, Option.map_eq_some'] at hw
    obtain ⟨res, hres, hmap⟩ := hw
    have h := biased_ext_length_le g p q (L - 1) fs node none [] res hres
    subst hmap
    refine ⟨by simp, ?_, by simp⟩
    simp only [List.length_map, List.length_cons]
    omega

/-- Witness for C1 at a concrete input: the triangle graph, walk_length 3,
seed 0. -/
theorem C1_walk_length_and_head_witness :
    1 ≤ 3 ∧
      (RandomWalker.do_walk triangle (fun _ => 0) 3 0).head? =
        some (toString (0 : Node)) :=
  ⟨by decide,
    ((C1_walk_length_and_head 3 (by decide)).1 triangle (fun _ => 0) 0).2.2⟩

/-- C4 counterexample: the claim includes BiasedRandomWalker, but on the
spec's own scenario (isolated node 5, walk_length 4) the biased walker does
not return the singleton walk — the first step already finds no neighbors
and the walk generation fails (modelled by `none`). -/
theorem C4_counterexample :
    BiasedRandomWalker.do_walk isoGraph 1 1 (fun _ => 0) 4 5 = none := by
  rfl

/-- C4 (amended): for UniformWalker, MultiEdgeWalker and MultiEdgeHopWalker,
with any walk_length ≥ 1, `do_walk` at a seed with zero neighbors returns
exactly the length-1 walk holding the string form of the seed; the
BiasedRandomWalker does so only when walk_length is 1 (so that no step
runs), and fails for walk_length ≥ 2. -/
theorem C4_isolated_seed_singleton :
    (∀ (g : SGraph) (fs : Nat → Nat) (L : Nat) (node : Node),
      1 ≤ L → g.neighbors node = [] →
      RandomWalker.do_walk g fs L node = [toString node]) ∧
    (∀ (g : MGraph) (fs : Nat → Nat) (L : Nat) (node : Node),
      1 ≤ L → g.nebs node = [] →
      MultiRandomWalker.do_walk g fs L node = [toString node]) ∧
    (∀ (g : MGraph) (hop_rate : ℚ) (fs : Nat → Nat) (L : Nat) (node : Node),
      1 ≤ L → g.nebs node = [] →
      MultiRandomWalkerWithHops.do_walk g hop_rate fs L node =
        [toString node]) ∧
    (∀ (g : SGraph) (p q : ℚ) (fs : Nat → Nat) (node : Node),
      BiasedRandomWalker.do_walk g p q fs 1 node = some [toString node]) ∧
    (∀ (g : SGraph) (p q : ℚ) (fs : Nat → Nat) (L : Nat) (node : Node),
      2 ≤ L → g.neighbors node = [] →
      BiasedRandomWalker.do_walk g p q fs L node = none) := by
  refine ⟨?_, ?_, ?_, ?_, ?_⟩
  · intro g fs L node _ h
    simp [RandomWalker.do_walk, randomWalker_ext_empty g (L - 1) fs node h]
  · intro g fs L node _ h
    simp [MultiRandomWalker.do_walk,
      multiRandomWalker_ext_empty g (L - 1) fs node h]
  · intro g hop_rate fs L node _ h
    simp [MultiRandomWalkerWithHops.do_walk,
      hops_ext_empty g hop_rate (L - 1) fs node none h]
  · intro g p q fs node
    simp [BiasedRandomWalker.do_walk, BiasedRandomWalker.ext]
  · intro g p q fs L node hL h
    have : L - 1 = (L - 2) + 1 := by omega
    simp [BiasedRandomWalker.do_walk, this,
      biased_ext_empty g p q fs (L - 2) node none [] h]

/-- Witness for C4 (amended) at a concrete input: the spec's scenario, the
isolated node 5 with walk_length 4, for the uniform walker. -/
theorem C4_isolated_seed_singleton_witness :
    1 ≤ 4 ∧ isoGraph.neighbors 5 = [] ∧
      RandomWalker.do_walk isoGraph (fun _ => 0) 4 5 = [toString (5 : Node)] :=
  ⟨by decide, by decide,
    C4_isolated_seed_singleton.1 isoGraph (fun _ => 0) 4 5 (by decide)
      (by decide)⟩

/-- C5: when the current node of a BiasedRandomWalker step has zero
neighbors (and at least one iteration remains, i.e. walk_length ≥ 2), the
step's weight vector is empty with sum 0 — so the normalisation by the sum
is a division by zero — and the walk generation fails (`none`) instead of
gracefully stopping; the other three walkers gracefully return the walk
built so far. -/
theorem C5_biased_empty_neighbors_fails :
    (∀ (p q : ℚ) (prev : Option Node) (pn : List Node),
      BiasedRandomWalker.stepWeights p q [] prev pn = [] ∧
      (BiasedRandomWalker.stepWeights p q [] prev pn).sum = 0) ∧
    (∀ (g : SGraph) (p q : ℚ) (fs : Nat → Nat) (fuel : Nat) (cur : Node)
      (prev : Option Node) (pn : List Node),
      g.neighbors cur = [] →
      BiasedRandomWalker.ext g p q fs (fuel + 1) cur prev pn = none) ∧
    (∀ (g : SGraph) (p q : ℚ) (fs : Nat → Nat) (L : Nat) (node : Node),
      2 ≤ L → g.neighbors node = [] →
      BiasedRandomWalker.do_walk g p q fs L node = none) ∧
    (∀ (g : SGraph) (fs : Nat → Nat) (L : Nat) (node : Node),
      g.neighbors node = [] →
      RandomWalker.do_walk g fs L node = [toString node]) ∧
    (∀ (g : MGraph) (fs : Nat → Nat) (L : Nat) (node : Node),
      g.nebs node = [] →
      MultiRandomWalker.do_walk g fs L node = [toString node]) ∧
    (∀ (g : MGraph) (hop_rate : ℚ) (fs : Nat → Nat) (L : Nat) (node : Node),
      g.nebs node = [] →
      MultiRandomWalkerWithHops.do_walk g hop_rate fs L node =
        [toString node]) := by
  refine ⟨?_, ?_, ?_, ?_, ?_, ?_⟩
  · intro p q prev pn
    simp [BiasedRandomWalker.stepWeights, maskAssign]
  · intro g p q fs fuel cur prev pn h
    exact biased_ext_empty g p q fs fuel cur prev pn h
  · intro g p q fs L node hL h
    have : L - 1 = (L - 2) + 1 := by omega
    simp [BiasedRandomWalker.do_walk, this,
      biased_ext_empty g p q fs (L - 2) node none [] h]
  · intro g fs L node h
    simp [RandomWalker.do_walk, randomWalker_ext_empty g (L - 1) fs node h]
  · intro g fs L node h
    simp [MultiRandomWalker.do_walk,
      multiRandomWalker_ext_empty g (L - 1) fs node h]
  · intro g hop_rate fs L node h
    simp [MultiRandomWalkerWithHops.do_walk,
      hops_ext_empty g hop_rate (L - 1) fs node none h]

/-- Witness for C5 at a concrete input: the isolated node 5 of `isoGraph`
with walk_length 4. -/
theorem C5_biased_empty_neighbors_fails_witness :
    2 ≤ 4 ∧ isoGraph.neighbors 5 = [] ∧
      BiasedRandomWalker.do_walk isoGraph 2 3 (fun _ => 0) 4 5 = none :=
  ⟨by decide, by decide,
    C5_biased_empty_neighbors_fails.2.2.1 isoGraph 2 3 (fun _ => 0) 4 5
      (by decide) (by decide)⟩

lemma doWalksLoop_append_acc (f : Nat → Node → List String) (K : Nat) :
    ∀ (ns : List Node) (c : Nat) (acc₁ acc₂ : List (List String)),
      doWalksLoop f K ns c (acc₁ ++ acc₂) =
        acc₁ ++ doWalksLoop f K ns c acc₂ := by
  intro ns
  induction ns with
  | nil => intro c a b; simp [doWalksLoop]
  | cons node rest ih =>
    intro c a b
    rw [doWalksLoop, doWalksLoop, List.append_assoc, ih]

lemma doWalksLoop_eq_append (f : Nat → Node → List String) (K : Nat)
    (ns : List Node) (c : Nat) (acc : List (List String)) :
    doWalksLoop f K ns c acc = acc ++ doWalksLoop f K ns c [] := by
  have h := doWalksLoop_append_acc f K ns c acc []
  simpa using h

lemma doWalksLoop_length (f : Nat → Node → List String) (K : Nat) :
    ∀ (ns : List Node) (c : Nat),
      (doWalksLoop f K ns c []).length = ns.length * K := by
  intro ns
  induction ns with
  | nil => intro c; simp [doWalksLoop]
  | cons node rest ih =>
    intro c
    rw [doWalksLoop, doWalksLoop_eq_append]
    simp only [List.nil_append, List.length_append, List.length_map,
      List.length_range, ih, List.length_cons]
    ring

lemma doWalksLoop_getElem (f : Nat → Node → List String) (K : Nat) :
    ∀ (ns : List Node) (c j i : Nat), j < ns.length → i < K →
      (doWalksLoop f K ns c [])[j * K + i]? =
        some (f (c + (j * K + i)) (ns.getD j 0)) := by
  intro ns
  induction ns with
  | nil => intro c j i hj _; simp at hj
  | cons node rest ih =>
    intro c j i hj hi
    rw [doWalksLoop, doWalksLoop_eq_append]
    simp only [List.nil_append]
    match j with
    | 0 =>
      rw [List.getElem?_append_left
        (by simp only [List.length_map, List.length_range]; omega)]
      rw [List.getElem?_map, List.getElem?_range (by omega)]
      simp
    | j' + 1 =>
      have hK : (j' + 1) * K = j' * K + K := by ring
      rw [List.getElem?_append_right
        (by simp only [List.length_map, List.length_range]; omega)]
      have hidx : (j' + 1) * K + i -
          (List.map (fun i => f (c + i) node) (List.range K)).length =
            j' * K + i := by
        simp only [List.length_map, List.length_range]
        omega
      rw [hidx]
      have hj' : j' < rest.length := by
        simp only [List.length_cons] at hj
        omega
      rw [ih (c + K) j' i hj' hi]
      have harg : c + K + (j' * K + i) = c + ((j' + 1) * K + i) := by ring
      rw [harg]
      simp

/-- C2: the driver `do_walks` first discards any previous `walks` contents,
then for each node of the graph, in native iteration order, invokes
`do_walk(node)` exactly `walk_number` times and appends the results in call
order; the resulting corpus has exactly |nodes| × walk_number walks, and the
entry at position j·K + i is the (i+1)-th walk of the (j+1)-th node,
produced by the (j·K + i)-th overall call. -/
theorem C2_do_walks_corpus (nodes : List Node) (K : Nat)
    (f : Nat → Node → List String) :
    (∀ old old', do_walks old nodes K f = do_walks old' nodes K f) ∧
    (do_walks [] nodes K f).length = nodes.length * K ∧
    (∀ j i, j < nodes.length → i < K →
      (do_walks [] nodes K f)[j * K + i]? =
        some (f (j * K + i) (nodes.getD j 0))) := by
  refine ⟨fun old old' => rfl, ?_, ?_⟩
  · exact doWalksLoop_length f K nodes 0
  · intro j i hj hi
    have h := doWalksLoop_getElem f K nodes 0 j i hj hi
    simpa using h

/-- Example per-call walk function for the C2 witness. -/
def walkFnExample : Nat → Node → List String :=
  fun c node => [toString node, toString c]

/-- Witness for C2 at a concrete input: two nodes, walk_number 2, inspecting
the last corpus entry. -/
theorem C2_do_walks_corpus_witness :
    do_walks [["9"]] [7, 8] 2 walkFnExample =
      do_walks [] [7, 8] 2 walkFnExample ∧
    (do_walks [] [7, 8] 2 walkFnExample).length = [7, 8].length * 2 ∧
    (do_walks [] [7, 8] 2 walkFnExample)[1 * 2 + 1]? =
      some (walkFnExample (1 * 2 + 1) (List.getD [7, 8] 1 0)) :=
  ⟨(C2_do_walks_corpus [7, 8] 2 walkFnExample).1 [["9"]] [],
   (C2_do_walks_corpus [7, 8] 2 walkFnExample).2.1,
   (C2_do_walks_corpus [7, 8] 2 walkFnExample).2.2 1 1 (by decide) (by decide)⟩

lemma maskAssign_getD (mask : Node → Bool) (v : ℚ) :
    ∀ (C : List Node) (prob : List ℚ) (i : Nat),
      prob.length = C.length → i < C.length →
      (maskAssign C mask v prob).getD i 0 =
        if mask (C.getD i 0) then v else prob.getD i 0 := by
  intro C
  induction C with
  | nil => intro prob i _ hi; simp at hi
  | cons x C' ih =>
    intro prob i h hi
    match prob with
    | [] => simp at h
    | w :: prob' =>
      match i with
      | 0 => simp [maskAssign]
      | i + 1 =>
        simp only [maskAssign, List.zip_cons_cons, List.map_cons,
          List.getD_cons_succ]
        have := ih prob' i (by simpa using h) (by simpa using hi)
        simpa [maskAssign] using this

lemma maskAssign_length (mask : Node → Bool) (v : ℚ) (C : List Node)
    (prob : List ℚ) (h : prob.length = C.length) :
    (maskAssign C mask v prob).length = C.length := by
  simp [maskAssign, List.length_zip, h]

lemma maskAssign_false (mask : Node → Bool) (v : ℚ) :
    ∀ (C : List Node) (prob : List ℚ), prob.length = C.length →
      (∀ x ∈ C, mask x = false) → maskAssign C mask v prob = prob := by
  intro C
  induction C with
  | nil =>
    intro prob h _
    match prob with
    | [] => rfl
    | w :: prob' => simp at h
  | cons x C' ih =>
    intro prob h hmask
    match prob with
    | [] => simp at h
    | w :: prob' =>
      simp only [maskAssign, List.zip_cons_cons, List.map_cons]
      rw [hmask x (by simp)]
      simp only [Bool.false_eq_true, if_false]
      have := ih prob' (by simpa using h) (fun y hy => hmask y (by simp [hy]))
      simpa [maskAssign] using this

lemma getD_replicate_of_lt (n : Nat) (a : ℚ) (i : Nat) (h : i < n) :
    (List.replicate n a).getD i 0 = a := by
  induction n generalizing i with
  | zero => omega
  | succ m ih =>
    match i with
    | 0 => simp [List.replicate]
    | i + 1 =>
      simp only [List.replicate, List.getD_cons_succ]
      exact ih i (by omega)

lemma stepWeights_length (p q : ℚ) (C : List Node) (prev : Option Node)
    (pn : List Node) :
    (BiasedRandomWalker.stepWeights p q C prev pn).length = C.length := by
  simp only [BiasedRandomWalker.stepWeights]
  rw [maskAssign_length _ _ _ _ (maskAssign_length _ _ _ _ (by simp))]

/-- C3: in every step of `BiasedRandomWalker.do_walk`, the unnormalised
weight of the neighbor at position i is produced by the override sequence
default `1/q`, then `1/p` where the neighbor equals the previous node, then
`1` where it lies in the previous node's neighbor set — so the
common-neighbor override is applied last and wins whenever it applies. -/
theorem C3_biased_weight_override_order (p q : ℚ) (C : List Node)
    (previous_node : Option Node) (previous_node_neighbors : List Node) :
    (BiasedRandomWalker.stepWeights p q C previous_node
        previous_node_neighbors).length = C.length ∧
    (∀ i, i < C.length →
      (BiasedRandomWalker.stepWeights p q C previous_node
          previous_node_neighbors).getD i 0 =
        if previous_node_neighbors.contains (C.getD i 0) then 1
        else if previous_node == some (C.getD i 0) then 1 / p
        else 1 / q) := by
  refine ⟨stepWeights_length p q C previous_node previous_node_neighbors, ?_⟩
  intro i hi
  simp only [BiasedRandomWalker.stepWeights]
  rw [maskAssign_getD _ _ C _ i (maskAssign_length _ _ _ _ (by simp)) hi]
  rw [maskAssign_getD _ _ C _ i (by simp) hi]
  rw [getD_replicate_of_lt _ _ _ hi]

/-- Witness for C3 at a concrete input: previous node 4, its neighbor set
containing 5, current neighbors 4 and 5, p = 2, q = 3, inspecting index 1
(a common neighbor, weight overridden to 1). -/
theorem C3_biased_weight_override_order_witness :
    1 < ([4, 5] : List Node).length ∧
      (BiasedRandomWalker.stepWeights 2 3 [4, 5] (some 4) [5]).getD 1 0 =
        if ([5] : List Node).contains (([4, 5] : List Node).getD 1 0) then 1
        else if (some 4 : Option Node) == some (([4, 5] : List Node).getD 1 0)
          then 1 / 2 else 1 / 3 :=
  ⟨by decide,
    (C3_biased_weight_override_order 2 3 [4, 5] (some 4) [5]).2 1 (by decide)⟩

lemma stepWeights_first_step (p q : ℚ) (C : List Node) :
    BiasedRandomWalker.stepWeights p q C none [] =
      List.replicate C.length (1 / q) := by
  simp only [BiasedRandomWalker.stepWeights]
  rw [maskAssign_false _ _ C _ (maskAssign_length _ _ _ _ (by simp))
    (fun x _ => by simp)]
  rw [maskAssign_false _ _ C _ (by simp) (fun x _ => by rfl)]

lemma normProbability_replicate (n : Nat) (r : ℚ) (hr : r ≠ 0) :
    normProbability (List.replicate n r) =
      List.replicate n (1 / (n : ℚ)) := by
  simp only [normProbability, List.map_replicate, List.sum_replicate,
    nsmul_eq_mul]
  congr 1
  rcases Nat.eq_zero_or_pos n with hn | hn
  · subst hn; simp
  · have hn' : (n : ℚ) ≠ 0 := Nat.cast_ne_zero.mpr (by omega)
    field_simp
    ring

/-- C10: on the first step of `BiasedRandomWalker.do_walk` the state is
`previous_node = none`, `previous_node_neighbors = []`, so neither override
matches: every neighbor of the seed gets weight `1/q`, the normalised
distribution is uniform over the seed's neighbors, and it does not depend on
p or q. -/
theorem C10_biased_first_step_uniform (g : SGraph) (node : Node) (p q : ℚ)
    (hq : q ≠ 0) :
    BiasedRandomWalker.stepWeights p q (g.neighbors node) none [] =
      List.replicate (g.neighbors node).length (1 / q) ∧
    normProbability
        (BiasedRandomWalker.stepWeights p q (g.neighbors node) none []) =
      List.replicate (g.neighbors node).length
        (1 / ((g.neighbors node).length : ℚ)) ∧
    (∀ p' q', q' ≠ 0 →
      normProbability
          (BiasedRandomWalker.stepWeights p' q' (g.neighbors node) none []) =
        normProbability
          (BiasedRandomWalker.stepWeights p q (g.neighbors node) none [])) := by
  have huniform : ∀ p₀ q₀ : ℚ, q₀ ≠ 0 →
      normProbability
          (BiasedRandomWalker.stepWeights p₀ q₀ (g.neighbors node) none []) =
        List.replicate (g.neighbors node).length
          (1 / ((g.neighbors node).length : ℚ)) := by
    intro p₀ q₀ hq₀
    rw [stepWeights_first_step, normProbability_replicate _ _ (by
      simpa using hq₀)]
  refine ⟨stepWeights_first_step p q _, huniform p q hq, ?_⟩
  intro p' q' hq'
  rw [huniform p' q' hq', huniform p q hq]

/-- Witness for C10 at a concrete input: the triangle graph's node 0, with
p = 5, q = 7 against p = 11, q = 13. -/
theorem C10_biased_first_step_uniform_witness :
    (7 : ℚ) ≠ 0 ∧ (13 : ℚ) ≠ 0 ∧
      normProbability
          (BiasedRandomWalker.stepWeights 11 13 (triangle.neighbors 0)
            none []) =
        normProbability
          (BiasedRandomWalker.stepWeights 5 7 (triangle.neighbors 0)
            none []) :=
  ⟨by norm_num, by norm_num,
    (C10_biased_first_step_uniform triangle 0 5 7 (by norm_num)).2.2 11 13
      (by norm_num)⟩

/-- C6: construction fails with an invalid-parameter error exactly when
p = 0 or q = 0 (`BiasedRandomWalker.__init__`) and exactly when
hop_rate ≤ 0 (`MultiRandomWalkerWithHops.__init__`); for every other
parameter value construction succeeds and stores the given parameters. -/
theorem C6_construction_validation :
    (∀ (L K : Nat) (p q : ℚ),
      (∃ e, BiasedRandomWalker.init L K p q = Except.error e) ↔
        (p = 0 ∨ q = 0)) ∧
    (∀ (L K : Nat) (p q : ℚ), p ≠ 0 → q ≠ 0 →
      BiasedRandomWalker.init L K p q = Except.ok ⟨L, K, p, q⟩) ∧
    (∀ (L K : Nat) (hop_rate : ℚ),
      (∃ e, MultiRandomWalkerWithHops.init L K hop_rate = Except.error e) ↔
        hop_rate ≤ 0) ∧
    (∀ (L K : Nat) (hop_rate : ℚ), 0 < hop_rate →
      MultiRandomWalkerWithHops.init L K hop_rate =
        Except.ok ⟨L, K, hop_rate⟩) := by
  refine ⟨?_, ?_, ?_, ?_⟩
  · intro L K p q
    constructor
    · rintro ⟨e, he⟩
      by_contra h
      push_neg at h
      simp [BiasedRandomWalker.init, h.1, h.2] at he
    · rintro (hp | hq)
      · exact ⟨"The value of p is too small or zero to be used in 1/p.",
          by simp [BiasedRandomWalker.init, hp]⟩
      · by_cases hp : p = 0
        · exact ⟨"The value of p is too small or zero to be used in 1/p.",
            by simp [BiasedRandomWalker.init, hp]⟩
        · exact ⟨"The value of q is too small or zero to be used in 1/q.",
            by simp [BiasedRandomWalker.init, hp, hq]⟩
  · intro L K p q hp hq
    simp [BiasedRandomWalker.init, hp, hq]
  · intro L K hop_rate
    constructor
    · rintro ⟨e, he⟩
      by_contra h
      push_neg at h
      simp [MultiRandomWalkerWithHops.init, not_le.mpr h] at he
    · intro h
      exact ⟨"Hop rate must be a float number greater than zero.",
        by simp [MultiRandomWalkerWithHops.init, h]⟩
  · intro L K hop_rate h
    simp [MultiRandomWalkerWithHops.init, not_le.mpr h]

/-- Witness for C6 at concrete inputs: p = 2, q = 3 are accepted and stored;
hop_rate = 1/2 is accepted and stored. -/
theorem C6_construction_validation_witness :
    (2 : ℚ) ≠ 0 ∧ (3 : ℚ) ≠ 0 ∧ (0 : ℚ) < 1 / 2 ∧
      BiasedRandomWalker.init 4 5 2 3 = Except.ok ⟨4, 5, 2, 3⟩ ∧
      MultiRandomWalkerWithHops.init 4 5 (1 / 2) =
        Except.ok ⟨4, 5, 1 / 2⟩ :=
  ⟨by norm_num, by norm_num, by norm_num,
    C6_construction_validation.2.1 4 5 2 3 (by norm_num) (by norm_num),
    C6_construction_validation.2.2.2 4 5 (1 / 2) (by norm_num)⟩

lemma filter_flatMap_not_mem (F : Node → List (Node × ℚ)) (v : Node)
    (hF : ∀ v' c, c ∈ F v' → c.1 = v') :
    ∀ (l : List Node), v ∉ l →
      (l.flatMap F).filter (fun c => c.1 == v) = [] := by
  intro l
  induction l with
  | nil => intro _; simp
  | cons a l' ih =>
    intro hv
    simp only [List.flatMap_cons, List.filter_append]
    rw [ih (fun h => hv (List.mem_cons_of_mem a h)), List.append_nil]
    rw [List.filter_eq_nil_iff]
    intro c hc
    have hca := hF a c hc
    have hav : a ≠ v := fun h => hv (h ▸ List.mem_cons_self a l')
    simp [hca, hav]

lemma filter_flatMap_of_nodup (F : Node → List (Node × ℚ)) (v : Node)
    (hF : ∀ v' c, c ∈ F v' → c.1 = v') :
    ∀ (l : List Node), l.Nodup → v ∈ l →
      (l.flatMap F).filter (fun c => c.1 == v) = F v := by
  intro l
  induction l with
  | nil => intro _ hv; simp at hv
  | cons a l' ih =>
    intro hnd hv
    simp only [List.flatMap_cons, List.filter_append]
    rcases List.mem_cons.mp hv with rfl | hv'
    · rw [filter_flatMap_not_mem F v hF l' (List.nodup_cons.mp hnd).1]
      rw [List.filter_eq_self.mpr (fun c hc => by simp [hF v c hc])]
      simp
    · have hav : a ≠ v := by
        rintro rfl
        exact (List.nodup_cons.mp hnd).1 hv'
      rw [List.filter_eq_nil_iff.mpr
        (fun c hc => by simp [hF a c hc, hav])]
      rw [List.nil_append]
      exact ih (List.nodup_cons.mp hnd).2 hv'

/-- C7: in every step of `MultiRandomWalker.do_walk`, the candidate list
holds one `(neighbor, weight)` entry per parallel edge of the current node,
so the probability that the weighted draw selects a given neighbor equals
the sum of the weights of all its parallel edges divided by the total weight
of all candidate entries. -/
theorem C7_multi_selection_probability (g : MGraph) (u v : Node)
    (hnd : (g.nebs u).Nodup) (hv : v ∈ g.nebs u) :
    (MultiRandomWalker.candidates g u).length =
      ((g.nebs u).map (fun w => (g.edges u w).length)).sum ∧
    probOf (MultiRandomWalker.candidates g u) (fun x => x == v) =
      ((g.edges u v).map (fun kd => kd.2)).sum /
        ((MultiRandomWalker.candidates g u).map (fun c => c.2)).sum := by
  constructor
  · simp only [MultiRandomWalker.candidates, List.length_flatMap,
      Function.comp_def, List.length_map]
  · have hF : ∀ (v' : Node) (c : Node × ℚ),
        c ∈ (g.edges u v').map (fun kd => (v', kd.2)) → c.1 = v' := by
      intro v' c hc
      obtain ⟨kd, _, hkd⟩ := List.mem_map.mp hc
      rw [← hkd]
    rw [probOf]
    rw [show (MultiRandomWalker.candidates g u).filter
          (fun c => (fun x => x == v) c.1) =
        (g.edges u v).map (fun kd => (v, kd.2)) from
      filter_flatMap_of_nodup _ v hF (g.nebs u) hnd hv]
    rw [List.map_map]
    rfl

/-- Witness for C7 at a concrete input: in `mgEx`, node 0 reaches node 1 by
two parallel edges (weights 9 and 2) and node 2 by one (weight 1). -/
theorem C7_multi_selection_probability_witness :
    (mgEx.nebs 0).Nodup ∧ 1 ∈ mgEx.nebs 0 ∧
      probOf (MultiRandomWalker.candidates mgEx 0) (fun x => x == 1) =
        ((mgEx.edges 0 1).map (fun kd => kd.2)).sum /
          ((MultiRandomWalker.candidates mgEx 0).map (fun c => c.2)).sum :=
  ⟨by decide, by decide,
    (C7_multi_selection_probability mgEx 0 1 (by decide) (by decide)).2⟩

/-- C8: each `(neighbor, key)` candidate of a `MultiRandomWalkerWithHops`
step carries its edge weight times hop_rate when a previous key exists and
differs from the edge's key, and the plain edge weight otherwise; after a
draw among the candidates the chosen edge's key becomes the new previous
key for the next step. -/
theorem C8_hop_effective_weights (g : MGraph) (hop_rate : ℚ) :
    (∀ (u : Node) (prev_key : Option Nat),
      MultiRandomWalkerWithHops.candidates g hop_rate u prev_key =
        (keyedCandidates g u).map (fun c =>
          (c.1, match prev_key with
            | some k0 => if k0 ≠ c.1.2 then c.2 * hop_rate else c.2
            | none => c.2))) ∧
    (∀ (fs : Nat → Nat) (fuel : Nat) (cur : Node) (prev_key : Option Nat),
      0 < (g.nebs cur).length →
      MultiRandomWalkerWithHops.ext g hop_rate fs (fuel + 1) cur prev_key =
        (let cands :=
          MultiRandomWalkerWithHops.candidates g hop_rate cur prev_key
        let chosen := cands.getD (fs 0 % cands.length) ((0, 0), 0)
        chosen.1.1 ::
          MultiRandomWalkerWithHops.ext g hop_rate (shift fs) fuel
            chosen.1.1 (some chosen.1.2))) := by
  constructor
  · intro u prev_key
    simp only [MultiRandomWalkerWithHops.candidates, keyedCandidates,
      List.map_flatMap, List.map_map]
    congr 1
    funext neigh
    apply List.map_congr_left
    intro kd _
    simp only [Function.comp_apply]
    cases prev_key with
    | none => simp
    | some k0 =>
      by_cases hk : k0 = kd.1
      · simp [hk]
      · simp [hk]
  · intro fs fuel cur prev_key h
    rw [MultiRandomWalkerWithHops.ext]
    dsimp only
    rw [if_pos h]

/-- Witness for C8 at a concrete input: one step of the hop walker on
`mgEx` from node 0, hop_rate 2, no previous key yet. -/
theorem C8_hop_effective_weights_witness :
    0 < (mgEx.nebs 0).length ∧
      MultiRandomWalkerWithHops.ext mgEx 2 (fun _ => 0) 1 0 none =
        (let cands := MultiRandomWalkerWithHops.candidates mgEx 2 0 none
        let chosen :=
          cands.getD ((fun _ : Nat => 0) 0 % cands.length) ((0, 0), 0)
        chosen.1.1 ::
          MultiRandomWalkerWithHops.ext mgEx 2 (shift (fun _ => 0)) 0
            chosen.1.1 (some chosen.1.2)) :=
  ⟨by decide,
    (C8_hop_effective_weights mgEx 2).2 (fun _ => 0) 0 0 none (by decide)⟩

lemma multi_candidates_eq_keyed_proj (g : MGraph) (u : Node) :
    MultiRandomWalker.candidates g u =
      (keyedCandidates g u).map (fun c => (c.1.1, c.2)) := by
  simp only [MultiRandomWalker.candidates, keyedCandidates,
    List.map_flatMap, List.map_map]
  congr 1

lemma hop_candidates_rate_one (g : MGraph) (u : Node) (pk : Option Nat) :
    MultiRandomWalkerWithHops.candidates g 1 u pk = keyedCandidates g u := by
  simp only [MultiRandomWalkerWithHops.candidates, keyedCandidates]
  congr 1
  funext neigh
  apply List.map_congr_left
  intro kd _
  split <;> simp

lemma hop_ext_rate_one (g : MGraph) (fuel : Nat) :
    ∀ (fs : Nat → Nat) (cur : Node) (pk : Option Nat),
      MultiRandomWalkerWithHops.ext g 1 fs fuel cur pk =
        MultiRandomWalker.ext g fs fuel cur := by
  induction fuel with
  | zero => intro fs cur pk; rfl
  | succ n ih =>
    intro fs cur pk
    rw [MultiRandomWalkerWithHops.ext, MultiRandomWalker.ext]
    dsimp only
    by_cases h : (g.nebs cur).length > 0
    · rw [if_pos h, if_pos h]
      rw [hop_candidates_rate_one, multi_candidates_eq_keyed_proj]
      have hlen : ((keyedCandidates g cur).map
          (fun c => (c.1.1, c.2))).length = (keyedCandidates g cur).length :=
        by simp
      rw [hlen]
      have hget : ((keyedCandidates g cur).map (fun c => (c.1.1, c.2))).getD
          (fs 0 % (keyedCandidates g cur).length) (0, 0) =
          (((keyedCandidates g cur).getD
              (fs 0 % (keyedCandidates g cur).length) ((0, 0), 0)).1.1,
            ((keyedCandidates g cur).getD
              (fs 0 % (keyedCandidates g cur).length) ((0, 0), 0)).2) := by
        rw [List.getD_eq_getElem?_getD, List.getD_eq_getElem?_getD,
          List.getElem?_map]
        cases (keyedCandidates g cur)[fs 0 % (keyedCandidates g cur).length]?
        · rfl
        · rfl
      rw [hget]
      dsimp only
      rw [ih]
    · rw [if_neg h, if_neg h]
      exact ih _ _ _

lemma filter_map_proj_sum (v : Node) :
    ∀ (l : List ((Node × Nat) × ℚ)),
      (((l.map (fun c => (c.1.1, c.2))).filter
          (fun c => c.1 == v)).map (fun c => c.2)).sum =
        ((l.filter (fun c => c.1.1 == v)).map (fun c => c.2)).sum := by
  intro l
  induction l with
  | nil => rfl
  | cons c l' ih =>
    by_cases h : c.1.1 = v
    · simp [List.filter_cons, h, ih]
    · simp [List.filter_cons, h, ih]

/-- C9: with hop_rate = 1 the hop factor is always 1, so every step of
`MultiRandomWalkerWithHops.do_walk` has the same candidate weights as the
corresponding `MultiRandomWalker.do_walk` step (the keyed candidates,
projected to neighbors), the two walkers produce identical walks on the
same oracle stream, and the per-step selection probability of every
neighbor coincides. -/
theorem C9_hop_rate_one_equiv (g : MGraph) :
    (∀ (u : Node) (prev_key : Option Nat),
      (MultiRandomWalkerWithHops.candidates g 1 u prev_key).map
          (fun c => (c.1.1, c.2)) =
        MultiRandomWalker.candidates g u) ∧
    (∀ (fs : Nat → Nat) (L : Nat) (node : Node),
      MultiRandomWalkerWithHops.do_walk g 1 fs L node =
        MultiRandomWalker.do_walk g fs L node) ∧
    (∀ (u v : Node) (prev_key : Option Nat),
      probOf (MultiRandomWalkerWithHops.candidates g 1 u prev_key)
          (fun nk => nk.1 == v) =
        probOf (MultiRandomWalker.candidates g u) (fun x => x == v)) := by
  refine ⟨?_, ?_, ?_⟩
  · intro u prev_key
    rw [hop_candidates_rate_one, multi_candidates_eq_keyed_proj]
  · intro fs L node
    simp only [MultiRandomWalkerWithHops.do_walk, MultiRandomWalker.do_walk]
    rw [hop_ext_rate_one]
  · intro u v prev_key
    rw [hop_candidates_rate_one, multi_candidates_eq_keyed_proj]
    simp only [probOf]
    rw [filter_map_proj_sum v (keyedCandidates g u)]
    rw [List.map_map]
    rfl
